import Mathlib

/-!
Verification development for the dependency-graph orchestrator of a
bundler resolution core (the `DependencyGraph` class).  The JavaScript
source is shallowly embedded: file-system paths are modelled as
normalized POSIX paths (a root flag plus a list of components), the
tracked-file registry snapshot (`hasteFS`), the caches and the resolver
configuration are explicit fields of a `GraphState` record, and each
method of the class becomes a pure Lean function over that record.
Ambient Node APIs used by the class (symlink resolution, file reads,
SHA-1 digests) are fields of a `NodeEnv` record, so a theorem about a
method quantifies over every possible disk state.
-/

namespace Metro

/-- A normalized POSIX-style path as manipulated by the Node `path`
module: `abs` says whether the path is absolute (its root is "/";
relative paths have root "") and `parts` is the list of path components
from outermost to innermost, containing no "." or ".." entries.
The path "/a/b.js" is `⟨true, ["a", "b.js"]⟩`; "/" is `⟨true, []⟩`; the
relative terminal "." (and the empty dir "" returned by
`path.parse` for a bare file name, which behaves identically in the
code under study) is `⟨false, []⟩`. -/
structure NodePath where
  abs : Bool
  parts : List String
  deriving DecidableEq, Repr

/-- Model of Node `path.dirname` on normalized paths: drop the last
component; `dirname "/" = "/"` and `dirname "." = "."` because
`dropLast [] = []`. -/
def pdirname (p : NodePath) : NodePath :=
  { p with parts := p.parts.dropLast }

/-- Model of Node `path.join(dir, name)` for a single trailing file
name on a normalized path. -/
def pjoin (dir : NodePath) (name : String) : NodePath :=
  { dir with parts := dir.parts ++ [name] }

/-- The `dir` field of Node `path.parse(filePath)`: the path without
its final (base-name) component. -/
def parsedDir (filePath : NodePath) : NodePath :=
  pdirname filePath

namespace DependencyGraph

/-- The do-while loop of `_getClosestPackage`, embedded from the
source: check `path.join(dir, "package.json")` against
`hasteFS.exists`, then move to `path.dirname(dir)` and continue while
the new directory differs from both "." and the parsed root.  On
normalized paths that loop condition is exactly "the new directory
still has components": an absolute walk bottoms out at "/" (the parsed
root) and a relative walk bottoms out at "." (never reaching the ""
root, since `dirname` never returns ""). -/
def closestGo (hfsExists : NodePath → Bool) (dir : NodePath) : Option NodePath :=
  if hfsExists (pjoin dir "package.json") then
    some (pjoin dir "package.json")
  else if h : (pdirname dir).parts.isEmpty then
    none
  else
    closestGo hfsExists (pdirname dir)
  termination_by dir.parts.length
  decreasing_by
    simp only [pdirname, List.isEmpty_iff] at h
    have hpos : 0 < dir.parts.dropLast.length := List.length_pos.mpr h
    simp only [pdirname, List.length_dropLast] at *
    omega

end DependencyGraph

open DependencyGraph

/-- Declarative description of the directories the upward manifest walk
visits, written independently of the loop: the non-empty prefixes of
the component list of the starting directory, longest (the directory
itself) first — i.e. the directory and its proper ancestors strictly
below the root.  When the starting directory is itself the root (no
components), the chain is just the root, because the do-while body runs
once before the loop condition is tested. -/
def ancestorChain (d : NodePath) : List NodePath :=
  if d.parts.isEmpty then [d]
  else
    (List.range d.parts.length).map
      (fun k => ⟨d.abs, d.parts.take (d.parts.length - k)⟩)

theorem ancestorChain_nil (d : NodePath) (h : d.parts = []) :
    ancestorChain d = [d] := by
  simp [ancestorChain, h]

theorem ancestorChain_one (d : NodePath) (h : d.parts.length = 1) :
    ancestorChain d = [d] := by
  have hne : ¬d.parts.isEmpty = true := by
    simp [List.isEmpty_iff]
    intro hnil
    simp [hnil] at h
  have ht : d.parts.take 1 = d.parts := by
    rw [← h, List.take_length]
  simp only [ancestorChain, if_neg hne, h]
  simp [List.range_succ, ht]

theorem ancestorChain_cons (d : NodePath) (h : 2 ≤ d.parts.length) :
    ancestorChain d = d :: ancestorChain (pdirname d) := by
  obtain ⟨n, hn⟩ : ∃ n, d.parts.length = n + 2 := ⟨d.parts.length - 2, by omega⟩
  have hne : ¬d.parts.isEmpty = true := by
    simp [List.isEmpty_iff]
    intro hnil
    simp [hnil] at hn
  have hdlen : (pdirname d).parts.length = n + 1 := by
    simp [pdirname, List.length_dropLast, hn]
  have hdne : ¬(pdirname d).parts.isEmpty = true := by
    simp [List.isEmpty_iff, List.length_eq_zero.symm, hdlen]
  simp only [ancestorChain, if_neg hne, if_neg hdne]
  rw [hn, hdlen, List.range_succ_eq_map, List.map_cons, List.map_map]
  congr 1
  · rw [Nat.sub_zero, ← hn, List.take_length]
  · apply List.map_congr_left
    intro k hk
    simp only [List.mem_range] at hk
    simp only [Function.comp_apply, pdirname, NodePath.mk.injEq, true_and]
    rw [List.dropLast_eq_take, List.take_take]
    have h1 : n + 2 - (k + 1) = n + 1 - k := by omega
    have h2 : min (n + 1 - k) (d.parts.length - 1) = n + 1 - k := by
      rw [hn]; omega
    rw [h1, h2]

/-- The walk of `closestGo` computes exactly the first directory in the
declarative ancestor chain whose `package.json` the registry reports as
existing, mapped to that manifest path. -/
theorem closestGo_eq_find (hfsExists : NodePath → Bool) (d : NodePath) :
    closestGo hfsExists d =
      ((ancestorChain d).find? (fun a => hfsExists (pjoin a "package.json"))).map
        (fun a => pjoin a "package.json") := by
  induction d using closestGo.induct hfsExists with
  | case1 dir hc =>
    have hhead : ∃ rest, ancestorChain dir = dir :: rest := by
      by_cases h0 : dir.parts.length = 0
      · exact ⟨[], ancestorChain_nil dir (List.length_eq_zero.mp h0)⟩
      · by_cases h1 : dir.parts.length = 1
        · exact ⟨[], ancestorChain_one dir h1⟩
        · exact ⟨_, ancestorChain_cons dir (by omega)⟩
    obtain ⟨rest, hrest⟩ := hhead
    rw [closestGo.eq_def, hrest]
    simp [List.find?, hc]
  | case2 dir hc hd =>
    have hlen : dir.parts.length ≤ 1 := by
      simp only [pdirname, List.isEmpty_iff] at hd
      have := congrArg List.length hd
      simp only [List.length_dropLast, List.length_nil] at this
      omega
    have hchain : ancestorChain dir = [dir] := by
      by_cases h0 : dir.parts.length = 0
      · exact ancestorChain_nil dir (List.length_eq_zero.mp h0)
      · exact ancestorChain_one dir (by omega)
    rw [closestGo.eq_def, hchain]
    simp [List.find?, hc, hd]
  | case3 dir hc hd ih =>
    have hge : 2 ≤ dir.parts.length := by
      have hpos : 0 < (pdirname dir).parts.length :=
        List.length_pos.mpr (by simpa [List.isEmpty_iff] using hd)
      simp only [pdirname, List.length_dropLast] at hpos
      omega
    have hcf : hfsExists (pjoin dir "package.json") = false := by
      simpa using hc
    rw [closestGo.eq_def, ancestorChain_cons dir hge]
    rw [if_neg hc, dif_neg hd]
    rw [List.find?_cons_of_neg _ (by simp [hcf])]
    exact ih

/-- Snapshot of the tracked-file registry handed over by the external
watcher (`hasteFS` in the source): file list, existence, per-file
SHA-1 (absent when not computed), and the optional global (haste)
name of a path. -/
structure HasteFSModel where
  getAllFiles : List NodePath
  existsFile : NodePath → Bool
  getSha1 : NodePath → Option String
  getModuleName : NodePath → Option String

/-- The configuration slice the embedded methods read. -/
structure ConfigModel where
  projectRoot : NodePath

/-- The global name → path registry (`moduleMap` in the source),
kept abstract: only its identity matters to the claims below. -/
def ModuleMapModel : Type := String → Option NodePath

/-- A module metadata entry, keyed by its absolute path. -/
structure Module where
  path : NodePath
  deriving DecidableEq, Repr

/-- The `ModuleCache` contents: one optional metadata entry per path. -/
def ModuleCacheModel : Type := NodePath → Option Module

/-- Memoization key of the `AssetResolutionCache`: directory, asset
base name, target platform. -/
structure AssetKey where
  dirPath : NodePath
  assetName : String
  platform : Option String
  deriving DecidableEq, Repr

/-- The `AssetResolutionCache` contents: memo table from key to the
resolved variant set. -/
def AssetCacheModel : Type := AssetKey → Option (List NodePath)

/-- The resolver configuration built by `_createModuleResolver`.  The
object literal in the source captures, at construction time, the value
of the mutable field `this._moduleMap` (all its other properties come
from the immutable `config` or are stable references), so the rebuilt
configuration is modelled by the captured module map. -/
structure ResolverCfg where
  moduleMap : ModuleMapModel

/-- The mutable fields of the `DependencyGraph` class. -/
structure GraphState where
  config : ConfigModel
  hasteFS : HasteFSModel
  filesByDirNameIndex : NodePath → List NodePath
  assetResolutionCache : AssetCacheModel
  moduleMap : ModuleMapModel
  moduleCache : ModuleCacheModel
  moduleResolver : ResolverCfg

/-- Ambient Node APIs used by `getSha1`: `fs.realpathSync` (symlink
resolution), `fs.readFileSync` (current bytes of a file, as the utf8
string the source reads), and the crypto SHA-1 hex digest. -/
structure NodeEnv where
  realpathSync : NodePath → NodePath
  readFileSync : NodePath → String
  sha1Hex : String → String

/-- Kind of a watcher event, as delivered in a change batch. -/
inductive HasteEventType where
  | add
  | change
  | delete
  deriving DecidableEq, Repr

/-- One entry of the `eventsQueue` of a change notification. -/
structure HasteEvent where
  type : HasteEventType
  filePath : NodePath
  deriving DecidableEq, Repr

/-- A batched change notification `{eventsQueue, hasteFS, moduleMap}`
delivered by the external watcher. -/
structure ChangeNotification where
  eventsQueue : List HasteEvent
  hasteFS : HasteFSModel
  moduleMap : ModuleMapModel

/-- JavaScript truthiness on a nullable string: null, undefined and
the empty string are falsy. -/
def jsFalsyStr : Option String → Bool
  | none => true
  | some s => s == ""

/-- A straight-line JavaScript statement that transfers control. -/
inductive JsStmt (ε α : Type) where
  | ret : α → JsStmt ε α
  | throwE : ε → JsStmt ε α

/-- Run a tail of straight-line JavaScript statements: a return or a
throw transfers control immediately, so statements after the first one
never execute; falling off the end yields no transfer. -/
def runBody {ε α : Type} : List (JsStmt ε α) → Option (Except ε α)
  | [] => none
  | JsStmt.ret a :: _ => some (Except.ok a)
  | JsStmt.throwE e :: _ => some (Except.error e)

/-- Model of the constructor call
`new FilesByDirNameIndex(hasteFS.getAllFiles())`: group the tracked
files by the directory that directly contains them. -/
def buildFilesByDirNameIndex (files : List NodePath) : NodePath → List NodePath :=
  fun dir => files.filter (fun f => parsedDir f == dir)

/-- Modelled from the spec: `ModuleCache.getModule` is not part of the
source under study (only its caller `resolveDependency` is).  Spec §3
and §4.4 define the ModuleMetadataCache entries as lazily created:
"one entry per path, created on first access, purged on any change
event naming that path" and "get(path) → metadata (creates and caches
on first access)".  The call returns the cached entry when present and
otherwise creates the entry for the path, stores it, and returns it
together with the updated cache contents. -/
def ModuleCacheModel.getModule (cache : ModuleCacheModel) (p : NodePath) :
    Module × ModuleCacheModel :=
  match cache p with
  | some m => (m, cache)
  | none =>
    let m : Module := ⟨p⟩
    (m, fun q => if q = p then some m else cache q)

/-- Modelled from the spec: `ModuleCache.processFileChange` is not part
of the source under study (only its caller `_onHasteChange` is).  Spec
§4.5 step 3 says: "For every event, invalidate the one
ModuleMetadataCache entry at the event path regardless of whether the
event is an add, edit, or delete (same purge policy for all three)".
The event type is therefore ignored and the one entry at the event
path is purged. -/
def processFileChange (_type : HasteEventType) (filePath : NodePath)
    (cache : ModuleCacheModel) : ModuleCacheModel :=
  fun q => if q = filePath then none else cache q

namespace DependencyGraph

/-- Embedding of `DependencyGraph._getClosestPackage`: parse the file
path (the walk starts at its `dir` and its `root` bounds the loop),
and run the do-while walk against `this._hasteFS.exists`. -/
def _getClosestPackage (g : GraphState) (filePath : NodePath) :
    Option NodePath :=
  closestGo g.hasteFS.existsFile (parsedDir filePath)

/-- Embedding of `DependencyGraph._createModuleResolver`: rebuild the
resolver configuration, capturing the current value of the mutable
field `this._moduleMap`. -/
def _createModuleResolver (g : GraphState) : ResolverCfg :=
  { moduleMap := g.moduleMap }

/-- The statements of the change handler `_onHasteChange`, in source
order, as an explicit straight-line program. -/
inductive HandlerStep where
  | setHasteFS
  | rebuildFilesByDirNameIndex
  | clearAssetResolutionCache
  | setModuleMap
  | processEventsQueue
  | rebuildModuleResolver
  | emitChange
  deriving DecidableEq, Repr

/-- Semantics of one handler statement against the state of the class.
`emitChange` leaves the state alone and records the pair (event name,
state visible to subscribers at the moment of emission). -/
def runStep (n : ChangeNotification) (g : GraphState) :
    HandlerStep → GraphState × List (String × GraphState)
  | .setHasteFS => ({ g with hasteFS := n.hasteFS }, [])
  | .rebuildFilesByDirNameIndex =>
      ({ g with filesByDirNameIndex :=
          buildFilesByDirNameIndex n.hasteFS.getAllFiles }, [])
  | .clearAssetResolutionCache =>
      ({ g with assetResolutionCache := fun _ => none }, [])
  | .setModuleMap => ({ g with moduleMap := n.moduleMap }, [])
  | .processEventsQueue =>
      ({ g with moduleCache :=
          (n.eventsQueue.foldl
            (fun c e => processFileChange e.type e.filePath c)
            g.moduleCache) }, [])
  | .rebuildModuleResolver =>
      ({ g with moduleResolver := _createModuleResolver g }, [])
  | .emitChange => (g, [("change", g)])

/-- Run handler statements in order, threading the state and
concatenating the emissions in order. -/
def runSteps (n : ChangeNotification) :
    List HandlerStep → GraphState → GraphState × List (String × GraphState)
  | [], g => (g, [])
  | s :: rest, g =>
    let r1 := runStep n g s
    let r2 := runSteps n rest r1.1
    (r2.1, r1.2 ++ r2.2)

/-- The body of `_onHasteChange`, statement by statement in source
order: replace the registry snapshot, rebuild the by-directory index
from it, clear the asset resolution cache, replace the module map,
process every queued event, rebuild the resolver configuration, and
finally emit "change". -/
def _onHasteChangeProgram : List HandlerStep :=
  [.setHasteFS, .rebuildFilesByDirNameIndex, .clearAssetResolutionCache,
   .setModuleMap, .processEventsQueue, .rebuildModuleResolver, .emitChange]

/-- Embedding of `DependencyGraph._onHasteChange`: run the handler
program on the current state, returning the final state and the list
of emissions. -/
def _onHasteChange (g : GraphState) (n : ChangeNotification) :
    GraphState × List (String × GraphState) :=
  runSteps n _onHasteChangeProgram g

/-- The state with every update of the change handler applied: new
registry snapshot, index rebuilt from it, asset cache cleared, new
module map, the one metadata entry of every queued event purged, and
the resolver configuration rebuilt over the new module map. -/
def fullyUpdatedState (g : GraphState) (n : ChangeNotification) : GraphState :=
  { config := g.config
    hasteFS := n.hasteFS
    filesByDirNameIndex := buildFilesByDirNameIndex n.hasteFS.getAllFiles
    assetResolutionCache := fun _ => none
    moduleMap := n.moduleMap
    moduleCache :=
      n.eventsQueue.foldl
        (fun c e => processFileChange e.type e.filePath c)
        g.moduleCache
    moduleResolver := { moduleMap := n.moduleMap } }

/-- Embedding of `DependencyGraph.getSha1`: resolve symlinks, look the
real path up in the registry snapshot; on a falsy recorded hash, read
the file bytes and return their freshly computed SHA-1 digest — the
`throw new ReferenceError(...)` statement of the source sits after that
`return` inside the same block (the source interpolates the file name
into the message; the interpolation is irrelevant here). -/
def getSha1 (env : NodeEnv) (g : GraphState) (filename : NodePath) :
    Except String String :=
  let resolvedPath := env.realpathSync filename
  let sha1 := g.hasteFS.getSha1 resolvedPath
  if jsFalsyStr sha1 then
    let content := env.readFileSync resolvedPath
    let otherSha1 := env.sha1Hex content
    (runBody [JsStmt.ret otherSha1,
              JsStmt.throwE "SHA-1 for file is not computed"]).getD
      (Except.error "fell off the function body")
  else
    Except.ok (sha1.getD "")

/-- Model of Node `path.relative` on the component lists of two
normalized paths sharing a root: strip the common leading components,
then go up once per remaining component of the origin and descend into
the remaining components of the target. -/
def relParts : List String → List String → List String
  | [], ts => ts
  | _f :: fs, [] => List.replicate (fs.length + 1) ".."
  | f :: fs, t :: ts =>
    if f = t then relParts fs ts
    else List.replicate (fs.length + 1) ".." ++ t :: ts

/-- Model of Node `path.relative(from, to)` for normalized paths that
share a root, rendered with "/" separators. -/
def pathRelative (fromPath toPath : NodePath) : String :=
  String.intercalate "/" (relParts fromPath.parts toPath.parts)

/-- Embedding of `DependencyGraph.getHasteName`: the registry-recorded global
name for the path when truthy, else the path relative to the
configured project root. -/
def getHasteName (g : GraphState) (filePath : NodePath) : String :=
  let hasteName := g.hasteFS.getModuleName filePath
  if jsFalsyStr hasteName then
    pathRelative g.config.projectRoot filePath
  else
    hasteName.getD ""

/-- Model of the JavaScript expression `platform || null`: an absent
or empty (falsy) platform string becomes null. -/
def jsOrNull (platform : Option String) : Option String :=
  match platform with
  | some s => if s == "" then none else some s
  | none => none

/-- The `ResolutionRequest` value built per call: origin path, target
platform, and the shared resolver configuration and metadata cache it
references (the `helpers` property is a constant derived from
configuration and is omitted). -/
structure ResolutionRequestModel where
  moduleResolver : ResolverCfg
  entryPath : NodePath
  platform : Option String
  moduleCache : ModuleCacheModel

/-- Embedding of `DependencyGraph.resolveDependency`: build the
ephemeral request, fetch (lazily creating) the origin module through
the metadata cache, and delegate to the resolver.  `reqResolve` stands
for `ResolutionRequest.resolveDependency`, which is not part of the
source under study; it is modelled from the spec — §2 "Resolver — the
specifier→path algorithm; stateless per call, reads the caches above
plus a snapshot of the tracked-file registry" — as an arbitrary pure
function of the request, the origin module and the specifier.  The
returned state carries the metadata cache updated by the lazy fetch of
the origin module. -/
def resolveDependency
    (reqResolve : ResolutionRequestModel → Module → String → NodePath)
    (g : GraphState) (fromPath : NodePath) (toSpecifier : String)
    (platform : Option String) : NodePath × GraphState :=
  let req : ResolutionRequestModel :=
    { moduleResolver := g.moduleResolver
      entryPath := fromPath
      platform := jsOrNull platform
      moduleCache := g.moduleCache }
  let fetched := g.moduleCache.getModule fromPath
  (reqResolve req fetched.1 toSpecifier, { g with moduleCache := fetched.2 })

end DependencyGraph

/-! Concrete instances used to exercise the theorems below on closed
inputs. -/

/-- An empty global name registry. -/
def emptyModuleMap : ModuleMapModel := fun _ => none

/-- A registry snapshot tracking no files. -/
def sampleHasteFS : HasteFSModel :=
  { getAllFiles := []
    existsFile := fun _ => false
    getSha1 := fun _ => none
    getModuleName := fun _ => none }

/-- A configuration whose project root is "/root". -/
def sampleConfig : ConfigModel := { projectRoot := ⟨true, ["root"]⟩ }

/-- A graph state over the empty registry with all caches empty. -/
def sampleGraphState : GraphState :=
  { config := sampleConfig
    hasteFS := sampleHasteFS
    filesByDirNameIndex := fun _ => []
    assetResolutionCache := fun _ => none
    moduleMap := emptyModuleMap
    moduleCache := fun _ => none
    moduleResolver := { moduleMap := emptyModuleMap } }

/-- A disk where every path is its own real path, every file reads as
"contents", and the digest function tags its input. -/
def sampleNodeEnv : NodeEnv :=
  { realpathSync := fun p => p
    readFileSync := fun _ => "contents"
    sha1Hex := fun s => "digest-of-" ++ s }

/-- A stand-in for the resolver core: resolve every specifier to the
own path of the origin module. -/
def sampleResolver : DependencyGraph.ResolutionRequestModel → Module → String → NodePath :=
  fun _ m _ => m.path

/-- An existence predicate whose only tracked file is the manifest
directly in the filesystem root, "/package.json". -/
def rootOnlyManifestExists : NodePath → Bool :=
  fun q => q == ⟨true, ["package.json"]⟩

/-- A graph state whose registry tracks only "/package.json". -/
def rootOnlyManifestState : GraphState :=
  { sampleGraphState with
      hasteFS := { sampleHasteFS with existsFile := rootOnlyManifestExists } }

/-- Every directory the walk visits still has components, provided the
starting directory has some. -/
theorem mem_ancestorChain_ne_nil (d a : NodePath) (hd : d.parts ≠ [])
    (ha : a ∈ ancestorChain d) : a.parts ≠ [] := by
  have hne : ¬d.parts.isEmpty = true := by
    simpa [List.isEmpty_iff] using hd
  simp only [ancestorChain, if_neg hne, List.mem_map, List.mem_range] at ha
  obtain ⟨k, hk, rfl⟩ := ha
  intro hnil
  have hlen := congrArg List.length hnil
  simp only [List.length_take, List.length_nil] at hlen
  have : 0 < d.parts.length := List.length_pos.mpr hd
  omega

/-- Purging one metadata entry per event, in order, leaves exactly the
non-event paths untouched and the event paths absent. -/
theorem foldl_processFileChange_apply (events : List HasteEvent)
    (c : ModuleCacheModel) (p : NodePath) :
    (events.foldl (fun c e => processFileChange e.type e.filePath c) c) p =
      if p ∈ events.map (fun e => e.filePath) then none else c p := by
  induction events generalizing c with
  | nil => simp
  | cons e es ih =>
    simp only [List.foldl_cons, List.map_cons, List.mem_cons, ih,
      processFileChange]
    by_cases hpe : p = e.filePath
    · simp [hpe]
    · by_cases hpes : p ∈ es.map (fun e => e.filePath) <;>
        simp [hpe, hpes]

/-- C5: `_getClosestPackage` walks the ancestor directory chain upward
starting at the own directory of the file and returns the first ancestor
directory whose `package.json` path exists in the registry (as that
manifest path), and none when no visited ancestor has an existing
manifest. -/
theorem getClosestPackage_first_manifest_in_ancestor_chain
    (g : GraphState) (filePath : NodePath) :
    DependencyGraph._getClosestPackage g filePath =
      ((ancestorChain (parsedDir filePath)).find?
        (fun a => g.hasteFS.existsFile (pjoin a "package.json"))).map
        (fun a => pjoin a "package.json") :=
  closestGo_eq_find g.hasteFS.existsFile (parsedDir filePath)

/-- Counterexample to C9 as stated: for the file "/c.js" the parsed
directory is the filesystem root itself, and the do-while body runs
once before the loop condition is ever tested, so root/package.json IS
checked: against a registry whose only tracked file is "/package.json"
the walk returns that manifest instead of none. -/
theorem getClosestPackage_checks_root_when_file_in_root :
    DependencyGraph._getClosestPackage rootOnlyManifestState ⟨true, ["c.js"]⟩ =
      some ⟨true, ["package.json"]⟩ := by
  simp [DependencyGraph._getClosestPackage, closestGo, parsedDir, pdirname,
    pjoin, rootOnlyManifestState, rootOnlyManifestExists, sampleGraphState,
    sampleHasteFS]

/-- C9 (amended): the loop condition is tested only after the body
runs, so the walk never tests the root directory when the own
directory of the file lies strictly below the root; for such a file, if no
directory with components (that is, no directory other than the root)
has an existing manifest, the walk returns none — even when a manifest
exists directly in the root. -/
theorem getClosestPackage_none_when_manifest_only_at_root
    (g : GraphState) (filePath : NodePath)
    (hdepth : (parsedDir filePath).parts ≠ [])
    (hnoneBelow : ∀ d : NodePath, d.parts ≠ [] →
      g.hasteFS.existsFile (pjoin d "package.json") = false) :
    DependencyGraph._getClosestPackage g filePath = none := by
  have hfind : (ancestorChain (parsedDir filePath)).find?
      (fun a => g.hasteFS.existsFile (pjoin a "package.json")) = none := by
    rw [List.find?_eq_none]
    intro a ha
    simp [hnoneBelow a (mem_ancestorChain_ne_nil _ a hdepth ha)]
  rw [DependencyGraph._getClosestPackage, closestGo_eq_find, hfind]
  rfl

/-- Witness for the amended C9: the file "/a/c.js" sits strictly below
the root; with "/package.json" as the only tracked file the walk
returns none. -/
theorem getClosestPackage_skips_root_witness :
    DependencyGraph._getClosestPackage rootOnlyManifestState
      ⟨true, ["a", "c.js"]⟩ = none :=
  getClosestPackage_none_when_manifest_only_at_root rootOnlyManifestState
    ⟨true, ["a", "c.js"]⟩ (by decide)
    (fun d hd => by
      have hne : (pjoin d "package.json") ≠ ⟨true, ["package.json"]⟩ := by
        intro hcontra
        apply hd
        have hlen := congrArg (fun x => x.parts.length) hcontra
        simp only [pjoin, List.length_append, List.length_cons,
          List.length_nil, List.length_singleton] at hlen
        exact List.length_eq_zero.mp (by omega)
      simp [rootOnlyManifestState, rootOnlyManifestExists, sampleHasteFS,
        hne])

/-- C4: the change handler performs exactly one emission, the event
it emits is "change", it is the final statement of the handler, and
the state it lets subscribers observe is the fully updated one — new
registry snapshot paired with the index rebuilt from that same
snapshot, cleared asset cache, new module map, purged metadata
entries, and the rebuilt resolver configuration. -/
theorem onHasteChange_emits_single_change_after_all_updates
    (g : GraphState) (n : ChangeNotification) :
    DependencyGraph._onHasteChange g n =
      (DependencyGraph.fullyUpdatedState g n,
       [("change", DependencyGraph.fullyUpdatedState g n)]) :=
  rfl

/-- C3: the change handler clears the asset resolution cache in full,
whatever the events are; the resulting metadata cache is the old one
with exactly the entries at event paths invalidated; and the purge
applied per event does not depend on the event kind. -/
theorem onHasteChange_clears_asset_cache_and_purges_event_paths
    (g : GraphState) (n : ChangeNotification) :
    ((DependencyGraph._onHasteChange g n).1.assetResolutionCache
        = fun _ => none)
    ∧ (∀ p : NodePath,
        (DependencyGraph._onHasteChange g n).1.moduleCache p =
          if p ∈ n.eventsQueue.map (fun e => e.filePath) then none
          else g.moduleCache p)
    ∧ (∀ (t1 t2 : HasteEventType) (p : NodePath) (c : ModuleCacheModel),
        processFileChange t1 p c = processFileChange t2 p c) := by
  refine ⟨rfl, ?_, fun t1 t2 p c => rfl⟩
  intro p
  exact foldl_processFileChange_apply n.eventsQueue g.moduleCache p

/-- C1: when the registry snapshot has no recorded hash for the real
(symlink-resolved) target of a path, `getSha1` returns the SHA-1
recomputed from the current bytes of the file and never surfaces the
"SHA-1 not computed" error: the throw statement sits after the return
inside the same block, and a return transfers control immediately, so
the throw can never execute. -/
theorem getSha1_recomputes_and_never_throws_on_missing_hash
    (env : NodeEnv) (g : GraphState) (filename : NodePath)
    (h : g.hasteFS.getSha1 (env.realpathSync filename) = none) :
    DependencyGraph.getSha1 env g filename =
      Except.ok (env.sha1Hex (env.readFileSync (env.realpathSync filename)))
    ∧ ∀ e : String, DependencyGraph.getSha1 env g filename ≠ Except.error e := by
  constructor
  · simp [DependencyGraph.getSha1, h, jsFalsyStr, runBody]
  · intro e
    simp [DependencyGraph.getSha1, h, jsFalsyStr, runBody]

/-- Witness for C1: over the empty registry (no recorded hash for any
path) the digest of the file bytes is returned and no error is
raised. -/
theorem getSha1_recompute_witness :
    DependencyGraph.getSha1 sampleNodeEnv sampleGraphState ⟨true, ["a.js"]⟩ =
      Except.ok "digest-of-contents" :=
  (getSha1_recomputes_and_never_throws_on_missing_hash sampleNodeEnv
    sampleGraphState ⟨true, ["a.js"]⟩ rfl).1

/-- A registry snapshot recording the empty string as the hash of
every path. -/
def emptyHashState : GraphState :=
  { sampleGraphState with
      hasteFS := { sampleHasteFS with getSha1 := fun _ => some "" } }

/-- Counterexample to C6 as stated: the registry records a hash (the
empty string) for the real target of "/a.js", yet `getSha1` does not
return that recorded hash — the falsy check sends the empty string
down the recompute path. -/
theorem getSha1_empty_recorded_hash_recomputes :
    emptyHashState.hasteFS.getSha1
        (sampleNodeEnv.realpathSync ⟨true, ["a.js"]⟩) = some ""
    ∧ DependencyGraph.getSha1 sampleNodeEnv emptyHashState ⟨true, ["a.js"]⟩ =
        Except.ok "digest-of-contents"
    ∧ DependencyGraph.getSha1 sampleNodeEnv emptyHashState ⟨true, ["a.js"]⟩ ≠
        Except.ok "" := by
  refine ⟨rfl, ?_, ?_⟩
  · simp [DependencyGraph.getSha1, emptyHashState, sampleHasteFS,
      sampleNodeEnv, jsFalsyStr, runBody]
  · simp [DependencyGraph.getSha1, emptyHashState, sampleHasteFS,
      sampleNodeEnv, jsFalsyStr, runBody]

/-- C6 (amended): for every path whose real (symlink-resolved) target
has a nonempty recorded hash in the registry snapshot, `getSha1`
returns exactly that recorded hash; the lookup happens on the resolved
real path.  (An empty recorded hash is treated as missing and triggers
the recompute path instead.) -/
theorem getSha1_returns_nonempty_recorded_hash
    (env : NodeEnv) (g : GraphState) (filename : NodePath) (h : String)
    (hrec : g.hasteFS.getSha1 (env.realpathSync filename) = some h)
    (hne : h ≠ "") :
    DependencyGraph.getSha1 env g filename = Except.ok h := by
  simp [DependencyGraph.getSha1, hrec, jsFalsyStr, hne]

/-- A registry snapshot recording the digest "abc123" for every
path. -/
def recordedHashState : GraphState :=
  { sampleGraphState with
      hasteFS := { sampleHasteFS with getSha1 := fun _ => some "abc123" } }

/-- Witness for the amended C6: the recorded digest is returned
verbatim. -/
theorem getSha1_recorded_hash_witness :
    DependencyGraph.getSha1 sampleNodeEnv recordedHashState ⟨true, ["a.js"]⟩ =
      Except.ok "abc123" :=
  getSha1_returns_nonempty_recorded_hash sampleNodeEnv recordedHashState
    ⟨true, ["a.js"]⟩ "abc123" rfl (by decide)

/-- C8: `getSha1` is deterministic over an unchanged snapshot and disk
state — two runs whose environments agree on the resolved real path of
the argument, on the recorded registry hash at that real path, and
on the digest of the file bytes at that real path, return identical
output, whatever else differs between the two runs. -/
theorem getSha1_deterministic_under_unchanged_state
    (env1 env2 : NodeEnv) (g1 g2 : GraphState) (filename : NodePath)
    (hrp : env1.realpathSync filename = env2.realpathSync filename)
    (hrec : g1.hasteFS.getSha1 (env1.realpathSync filename) =
      g2.hasteFS.getSha1 (env2.realpathSync filename))
    (hbytes : env1.sha1Hex (env1.readFileSync (env1.realpathSync filename)) =
      env2.sha1Hex (env2.readFileSync (env2.realpathSync filename))) :
    DependencyGraph.getSha1 env1 g1 filename =
      DependencyGraph.getSha1 env2 g2 filename := by
  simp only [DependencyGraph.getSha1, hrec, hbytes]

/-- A second disk for the determinism witness: it differs from
`sampleNodeEnv` on the bytes of "/other.js" but agrees on everything
`getSha1` consults for "/a.js". -/
def otherNodeEnv : NodeEnv :=
  { realpathSync := fun p => p
    readFileSync := fun q => if q = ⟨true, ["other.js"]⟩ then "changed" else "contents"
    sha1Hex := fun s => "digest-of-" ++ s }

/-- Witness for C8: two runs over environments that differ only in an
irrelevant file produce the same output. -/
theorem getSha1_deterministic_witness :
    DependencyGraph.getSha1 sampleNodeEnv sampleGraphState ⟨true, ["a.js"]⟩ =
      DependencyGraph.getSha1 otherNodeEnv sampleGraphState ⟨true, ["a.js"]⟩ :=
  getSha1_deterministic_under_unchanged_state sampleNodeEnv otherNodeEnv
    sampleGraphState sampleGraphState ⟨true, ["a.js"]⟩ rfl rfl (by decide)

/-- C7: `getHasteName` returns the registry-recorded global name for
the path when one (a nonempty one — the empty-name case is the subject
of C10) exists, and otherwise returns the path expressed relative to
the configured project root. -/
theorem getHasteName_recorded_or_relative (g : GraphState) (filePath : NodePath) :
    (∀ n : String, g.hasteFS.getModuleName filePath = some n → n ≠ "" →
        DependencyGraph.getHasteName g filePath = n)
    ∧ (g.hasteFS.getModuleName filePath = none →
        DependencyGraph.getHasteName g filePath =
          DependencyGraph.pathRelative g.config.projectRoot filePath) := by
  constructor
  · intro n hn hne
    simp [DependencyGraph.getHasteName, hn, jsFalsyStr, hne]
  · intro hn
    simp [DependencyGraph.getHasteName, hn, jsFalsyStr]

/-- A registry snapshot registering every path under the global name
"Foo". -/
def namedState : GraphState :=
  { sampleGraphState with
      hasteFS := { sampleHasteFS with getModuleName := fun _ => some "Foo" } }

/-- Witness for C7: a recorded name is returned as-is; with no
recorded name the project-root-relative path comes back. -/
theorem getHasteName_witness :
    DependencyGraph.getHasteName namedState ⟨true, ["a.js"]⟩ = "Foo"
    ∧ DependencyGraph.getHasteName sampleGraphState ⟨true, ["a.js"]⟩ =
        DependencyGraph.pathRelative sampleConfig.projectRoot ⟨true, ["a.js"]⟩ :=
  ⟨(getHasteName_recorded_or_relative namedState ⟨true, ["a.js"]⟩).1 "Foo"
      rfl (by decide),
   (getHasteName_recorded_or_relative sampleGraphState ⟨true, ["a.js"]⟩).2 rfl⟩

/-- C10: a falsy recorded global name — for a nullable string, the
empty string — is treated as absent: `getHasteName` falls back to the
project-root-relative path instead of returning the empty name. -/
theorem getHasteName_empty_name_falls_back (g : GraphState)
    (filePath : NodePath)
    (h : g.hasteFS.getModuleName filePath = some "") :
    DependencyGraph.getHasteName g filePath =
      DependencyGraph.pathRelative g.config.projectRoot filePath := by
  simp [DependencyGraph.getHasteName, h, jsFalsyStr]

/-- A registry snapshot recording the empty string as the global name of
every path. -/
def emptyNamedState : GraphState :=
  { sampleGraphState with
      hasteFS := { sampleHasteFS with getModuleName := fun _ => some "" } }

/-- Witness for C10: with the empty string recorded, the fallback
fires. -/
theorem getHasteName_empty_name_witness :
    DependencyGraph.getHasteName emptyNamedState ⟨true, ["a.js"]⟩ =
      DependencyGraph.pathRelative sampleConfig.projectRoot ⟨true, ["a.js"]⟩ :=
  getHasteName_empty_name_falls_back emptyNamedState ⟨true, ["a.js"]⟩ rfl

/-- Counterexample to C2 as stated: resolving from an origin whose
metadata entry is not yet cached inserts that entry into the module
metadata cache (the cache creates it on first access), so the graph
state after the call differs from the state before it — resolution is
not mutation-free. -/
theorem resolveDependency_mutates_module_cache :
    (DependencyGraph.resolveDependency sampleResolver sampleGraphState
      ⟨true, ["a.js"]⟩ "./b" none).2 ≠ sampleGraphState := by
  intro hEq
  have h2 := congrArg (fun s => s.moduleCache ⟨true, ["a.js"]⟩) hEq
  simp [DependencyGraph.resolveDependency, ModuleCacheModel.getModule,
    sampleGraphState, sampleHasteFS] at h2

/-- C2 (amended): a `resolveDependency` call leaves the registry
snapshot, the by-directory file index, the asset resolution cache, the
module map, the resolver configuration and the configuration itself
untouched; the only state it may change is the module metadata cache,
which gains the lazily created entry for the origin path — entries at
every other path are unchanged, and an already present origin entry is
returned as-is. -/
theorem resolveDependency_frame
    (reqResolve : DependencyGraph.ResolutionRequestModel → Module → String → NodePath)
    (g : GraphState) (fromPath : NodePath) (toSpecifier : String)
    (platform : Option String) :
    ((DependencyGraph.resolveDependency reqResolve g fromPath toSpecifier
        platform).2 =
      { g with moduleCache := (g.moduleCache.getModule fromPath).2 })
    ∧ (∀ q : NodePath, q ≠ fromPath →
        (g.moduleCache.getModule fromPath).2 q = g.moduleCache q)
    ∧ ((g.moduleCache.getModule fromPath).2 fromPath =
        some (g.moduleCache.getModule fromPath).1) := by
  refine ⟨rfl, ?_, ?_⟩
  · intro q hq
    unfold ModuleCacheModel.getModule
    cases hc : g.moduleCache fromPath with
    | some m => rfl
    | none => simp [hq]
  · unfold ModuleCacheModel.getModule
    cases hc : g.moduleCache fromPath with
    | some m => simpa using hc
    | none => simp

/-- Witness for the amended C2: after resolving from "/a.js" over the
empty cache, the entry at the unrelated path "/b.js" is unchanged. -/
theorem resolveDependency_frame_witness :
    (sampleGraphState.moduleCache.getModule ⟨true, ["a.js"]⟩).2
        ⟨true, ["b.js"]⟩ =
      sampleGraphState.moduleCache ⟨true, ["b.js"]⟩ :=
  (resolveDependency_frame sampleResolver sampleGraphState ⟨true, ["a.js"]⟩
    "./b" none).2.1 ⟨true, ["b.js"]⟩ (by decide)

end Metro
